import Mathlib

/-!
Verification of the tskv non-blocking TCP I/O core against its
natural-language specification.

The definitions below are a shallow embedding of the C++ sources:

* `SimpleBuffer`        — src/src/common/buffer.ixx, `tskv::common::SimpleBuffer<BUFSIZE>`.
  The raw byte array plus `offset_` cursor is modelled as the list of live
  bytes `data` (the region `buf_[0, offset_)`); `cap` is the template
  parameter `BUFSIZE`.  Bytes are modelled as natural numbers (the code never
  computes with byte values, it only copies them).
* `Channel`             — src/src/common/key_set.ixx, `tskv::net::Channel<Proto>`
  (the module `tskv.net.channel` embedded in that file).  The protocol
  instance `proto_` is not modelled: none of the verified operations touch it.
* `AdditiveGaugeShard`  — src/src/common/metrics.ixx.  `gauge_t` is
  `std::uint64_t`; it is modelled as `Nat` with wrap-around taken explicitly
  modulo `U64 = 2 ^ 64`.
* `key_array`           — src/src/common/key_array.ixx.  The compile-time
  key pack `Keys...` becomes the runtime list `keys : List String`; the
  compile-time `index_of` becomes `indexOfKey` (index of the first match).
* `ChannelPool`         — src/src/common/key_set.ixx, `tskv::net::ChannelPool`.
  A chunk's `free_stack_[0, free_top_)` is modelled as a list whose head is
  the top of the stack; the `unordered_map` `active_` is an association
  list.  `assert` / `TSKV_DEMAND` failures terminate the process
  (log_invariant_failure in src/src/common/logging.ixx calls `std::abort`);
  they are modelled by the `AcquireResult.fatal` outcome, which records the
  state of the pool at the moment of termination.
-/

namespace Tskv

/-- Bytes are modelled by their numeric value; the code only copies them. -/
abbrev Byte := Nat

/-! ## SimpleBuffer (src/src/common/buffer.ixx) -/

/-- `SimpleBuffer<BUFSIZE>`: `data` is the live region `buf_[0, offset_)`,
`cap` is `BUFSIZE`; `offset_` is recovered as `data.length`. -/
structure SimpleBuffer where
  cap : Nat
  data : List Byte
deriving DecidableEq

/-- `used_space()`: returns `offset_`. -/
def SimpleBuffer.used_space (b : SimpleBuffer) : Nat := b.data.length

/-- `free_space()`: returns `BUFSIZE - offset_`. -/
def SimpleBuffer.free_space (b : SimpleBuffer) : Nat := b.cap - b.data.length

/-- `empty()`: `offset_ == 0`. -/
def SimpleBuffer.empty (b : SimpleBuffer) : Bool := b.data.length == 0

/-- `full()`: `offset_ == BUFSIZE`. -/
def SimpleBuffer.full (b : SimpleBuffer) : Bool := b.data.length == b.cap

/-- `clear()`: `offset_ = 0`. -/
def SimpleBuffer.clear (b : SimpleBuffer) : SimpleBuffer := { b with data := [] }

/-- `write_from(src)`: copies `count = min(src.size(), free_space())` bytes to
the end of the live region and advances `offset_`; returns `count` and the
updated buffer. -/
def SimpleBuffer.write_from (b : SimpleBuffer) (src : List Byte) : Nat × SimpleBuffer :=
  let count := min src.length b.free_space
  (count, { b with data := b.data ++ src.take count })

/-- `consume(n)`: no-op for `n == 0`; otherwise clamps `n` to `used_space()`,
moves the leftover bytes to offset 0 (`memmove`) and decrements `offset_`. -/
def SimpleBuffer.consume (b : SimpleBuffer) (n : Nat) : SimpleBuffer :=
  if n = 0 then b
  else { b with data := b.data.drop (min n b.used_space) }

/-- `read_into(dst)`: copies `count = min(dst.size(), used_space())` bytes from
the front and then `consume(count)`s them; returns the copied bytes (the
contents of `dst[0, count)`) and the updated buffer. -/
def SimpleBuffer.read_into (b : SimpleBuffer) (dstLen : Nat) : List Byte × SimpleBuffer :=
  let count := min dstLen b.used_space
  (b.data.take count, b.consume count)

/-- `writable_span(max_len)`: the span starts at the write cursor and has
length `min(max_len, free_space())`.  Its contents are raw uninitialized
memory, so the model records only the length. -/
def SimpleBuffer.writable_span (b : SimpleBuffer) (max_len : Nat) : Nat :=
  min max_len b.free_space

/-- `commit(n)`: clamps `n` to `free_space()` and advances `offset_`.  The
committed bytes were placed through the raw span by the caller and are not
tracked by the model; they are represented by zero placeholders. -/
def SimpleBuffer.commit (b : SimpleBuffer) (n : Nat) : SimpleBuffer :=
  { b with data := b.data ++ List.replicate (min n b.free_space) 0 }

/-- `readable_span(max_len)`: the first `min(max_len, used_space())` live
bytes, at offset 0. -/
def SimpleBuffer.readable_span (b : SimpleBuffer) (max_len : Nat) : List Byte :=
  b.data.take (min max_len b.used_space)

/-- A default-constructed `SimpleBuffer<cap>`: `offset_ == 0`. -/
def SimpleBuffer.fresh (cap : Nat) : SimpleBuffer := ⟨cap, []⟩

theorem SimpleBuffer.consume_data (b : SimpleBuffer) (n : Nat) :
    (b.consume n).data = b.data.drop (min n b.used_space) := by
  unfold SimpleBuffer.consume
  split
  · simp_all
  · rfl

theorem SimpleBuffer.consume_cap (b : SimpleBuffer) (n : Nat) :
    (b.consume n).cap = b.cap := by
  unfold SimpleBuffer.consume
  split <;> rfl

/-! ## Write/read traces over a fresh buffer (claim C4) -/

/-- One client call against the copy-based producer/consumer API. -/
inductive BufOp where
  | write (src : List Byte)
  | read (dstLen : Nat)
deriving DecidableEq

/-- A buffer together with the concatenation of all bytes returned by
`read_into` so far (`reads`) and of all bytes actually stored by
`write_from` so far (`written`, each write truncated to the free space at
the time of the call). -/
structure BufTrace where
  buf : SimpleBuffer
  reads : List Byte
  written : List Byte
deriving DecidableEq

/-- Execute one `write_from` / `read_into` call, recording what it stored or
returned. -/
def BufTrace.step (t : BufTrace) : BufOp → BufTrace
  | .write src =>
    let r := t.buf.write_from src
    ⟨r.2, t.reads, t.written ++ src.take r.1⟩
  | .read dstLen =>
    let r := t.buf.read_into dstLen
    ⟨r.2, t.reads ++ r.1, t.written⟩

/-- Run a call sequence against a fresh `SimpleBuffer<cap>`. -/
def runOps (cap : Nat) (ops : List BufOp) : BufTrace :=
  ops.foldl BufTrace.step ⟨SimpleBuffer.fresh cap, [], []⟩

/-- Trace invariant: the bytes read so far followed by the live buffer
contents are exactly the bytes stored so far, and the buffer stays within
its fixed capacity. -/
def BufInv (cap : Nat) (t : BufTrace) : Prop :=
  t.reads ++ t.buf.data = t.written ∧ t.buf.data.length ≤ cap ∧ t.buf.cap = cap

theorem BufTrace.step_inv {cap : Nat} {t : BufTrace} (op : BufOp)
    (h : BufInv cap t) : BufInv cap (t.step op) := by
  obtain ⟨hfifo, hlen, hcap⟩ := h
  cases op with
  | write src =>
    refine ⟨?_, ?_, by simp [BufTrace.step, SimpleBuffer.write_from, hcap]⟩
    · simp only [BufTrace.step, SimpleBuffer.write_from]
      rw [← hfifo, List.append_assoc]
    · simp only [BufTrace.step, SimpleBuffer.write_from, List.length_append,
        List.length_take]
      have hfree : t.buf.free_space = cap - t.buf.data.length := by
        rw [SimpleBuffer.free_space, hcap]
      rw [hfree]
      omega
  | read dstLen =>
    have hcount : min (min dstLen t.buf.used_space) t.buf.used_space
        = min dstLen t.buf.used_space := by
      simp [min_assoc]
    refine ⟨?_, ?_, by simp [BufTrace.step, SimpleBuffer.read_into,
      SimpleBuffer.consume_cap, hcap]⟩
    · simp only [BufTrace.step, SimpleBuffer.read_into,
        SimpleBuffer.consume_data, hcount]
      rw [List.append_assoc, List.take_append_drop, hfifo]
    · simp only [BufTrace.step, SimpleBuffer.read_into,
        SimpleBuffer.consume_data, hcount]
      have := List.length_drop (min dstLen t.buf.used_space) t.buf.data
      omega

theorem foldl_step_inv (cap : Nat) (ops : List BufOp) :
    ∀ t : BufTrace, BufInv cap t → BufInv cap (ops.foldl BufTrace.step t) := by
  induction ops with
  | nil => intro t h; exact h
  | cons op ops ih => intro t h; exact ih _ (BufTrace.step_inv op h)

theorem runOps_inv (cap : Nat) (ops : List BufOp) : BufInv cap (runOps cap ops) :=
  foldl_step_inv cap ops _ ⟨rfl, by simp [SimpleBuffer.fresh], rfl⟩

/-! ## Channel (src/src/common/key_set.ixx, module tskv.net.channel) -/

/-- `tskv::net::SendResult`. -/
inductive SendResult where
  | Full
  | Partial
  | Forbidden
deriving DecidableEq

/-- `Channel<Proto>::SocketState`. -/
inductive SocketState where
  | Running
  | Draining
  | Aborting
  | Closed
deriving DecidableEq

/-- `tskv::net::Channel<Proto>`: the descriptor, the two bounded buffers, the
cached last event mask and the socket state.  The embedded protocol instance
`proto_` is not modelled (no verified operation reads or writes it). -/
structure Channel where
  fd : Int
  tx_buf : SimpleBuffer
  rx_buf : SimpleBuffer
  last_events_mask : Nat
  socket_state : SocketState
deriving DecidableEq

/-- `Channel::can_read()`: `socket_state_ == SocketState::Running && !rx_buf_.full()`. -/
def Channel.can_read (ch : Channel) : Bool :=
  if ch.socket_state = SocketState.Running then !ch.rx_buf.full else false

/-- `Channel::can_write()`: state is Running or Draining, and `!tx_buf_.empty()`. -/
def Channel.can_write (ch : Channel) : Bool :=
  if ch.socket_state = SocketState.Running ∨ ch.socket_state = SocketState.Draining then
    !ch.tx_buf.empty
  else false

/-- `Channel::tx_send(data)`: refuse in Closed or Aborting state, otherwise
queue through `tx_buf_.write_from` and report Full when every byte was
queued, Partial otherwise. -/
def Channel.tx_send (ch : Channel) (data : List Byte) : (Nat × SendResult) × Channel :=
  if ch.socket_state = SocketState.Closed ∨ ch.socket_state = SocketState.Aborting then
    ((0, SendResult.Forbidden), ch)
  else
    let r := ch.tx_buf.write_from data
    ((r.1, if r.1 = data.length then SendResult.Full else SendResult.Partial),
      { ch with tx_buf := r.2 })

/-- `Channel::begin_shutdown()`: Running moves to Draining (the kernel-level
`::shutdown(fd_, SHUT_RD)` does not touch the channel object); any other
state is left alone. -/
def Channel.begin_shutdown (ch : Channel) : Channel :=
  if ch.socket_state = SocketState.Running then
    { ch with socket_state := SocketState.Draining }
  else ch

/-- `Channel::should_close()`. -/
def Channel.should_close (ch : Channel) : Bool :=
  if ch.socket_state = SocketState.Aborting then true
  else if ch.socket_state = SocketState.Draining ∧ ch.tx_buf.empty = true then true
  else false

/-- `EPOLLIN` on Linux. -/
def EPOLLIN : Nat := 1

/-- `EPOLLOUT` on Linux. -/
def EPOLLOUT : Nat := 4

/-- `Channel::desired_events()`: a fresh mask recomputed from `can_read` /
`can_write` on every call. -/
def Channel.desired_events (ch : Channel) : Nat :=
  let mask0 : Nat := 0
  let mask1 := if ch.can_read then mask0 ||| EPOLLIN else mask0
  if ch.can_write then mask1 ||| EPOLLOUT else mask1

/-! ## Additive gauge shards (src/src/common/metrics.ixx) -/

/-- Wrap-around modulus of `gauge_t = std::uint64_t`. -/
def U64 : Nat := 2 ^ 64

/-- `detail::AdditiveGaugeShard`: a per-thread current value and the snapshot
last folded into the global.  Both are `uint64_t`, kept below `U64`. -/
structure AdditiveGaugeShard where
  current : Nat
  last_synced : Nat
deriving DecidableEq

/-- `AdditiveGaugeShard::sync(global, shard)`: adjust the global by
`current_ - last_synced_` in wrap-around 64-bit arithmetic (`+=` when the
difference is non-negative, `-=` of the magnitude otherwise). -/
def AdditiveGaugeShard.sync (global : Nat) (s : AdditiveGaugeShard) : Nat :=
  if s.last_synced ≤ s.current then
    (global + (s.current - s.last_synced)) % U64
  else
    (global + (U64 - (s.last_synced - s.current))) % U64

/-- `AdditiveGaugeShard::post_sync()`: `last_synced_ = current_`. -/
def AdditiveGaugeShard.post_sync (s : AdditiveGaugeShard) : AdditiveGaugeShard :=
  { s with last_synced := s.current }

/-- `AdditiveGaugeShard::set(val)`: `current_ = val`. -/
def AdditiveGaugeShard.set (s : AdditiveGaugeShard) (v : Nat) : AdditiveGaugeShard :=
  { s with current := v }

/-- A freshly constructed shard: both fields zero. -/
def freshShard : AdditiveGaugeShard := ⟨0, 0⟩

/-- One fold of one shard under the global metrics mutex
(`GlobalMetrics::sync_with` restricted to one gauge key, followed by the
shard's part of `ThreadLocalMetrics::post_sync`). -/
def foldShard (global : Nat) (s : AdditiveGaugeShard) : Nat × AdditiveGaugeShard :=
  (AdditiveGaugeShard.sync global s, s.post_sync)

/-- `detail::flush_thread(min_interval)` for one shard: skip when less than
`min_interval` elapsed since this thread's last fold, otherwise fold under
the mutex and post-sync.  With `min_interval = 0` the elapsed check
`now - last < min_interval` never holds, so the fold always runs. -/
def flush_thread (min_interval elapsed : Nat) (global : Nat) (s : AdditiveGaugeShard) :
    Nat × AdditiveGaugeShard :=
  if elapsed < min_interval then (global, s) else foldShard global s

/-- One thread of the C7 scenario: its fresh shard performs
`set_gauge(v)` (`AdditiveGaugeShard::set`) and then a forced fold
(`flush_thread` with zero interval) against the running global. -/
def gaugeStep (acc : Nat × List AdditiveGaugeShard) (v : Nat) : Nat × List AdditiveGaugeShard :=
  let r := flush_thread 0 0 acc.1 (AdditiveGaugeShard.set freshShard v)
  (r.1, acc.2 ++ [r.2])

/-- The C7 scenario: starting from a zero global, each of the per-thread
shards (all fresh) performs `set_gauge(v)` and then a forced fold; the folds
run one at a time (the global fold mutex), here in list order. -/
def runGaugeScenario (vs : List Nat) : Nat × List AdditiveGaugeShard :=
  vs.foldl gaugeStep (0, [])

/-! ## Compile-time keyed array (src/src/common/key_array.ixx) -/

/-- Replace the element at position `i` (no-op when `i` is out of range). -/
def modifyAt {T : Type} : List T → Nat → (T → T) → List T
  | [], _, _ => []
  | a :: as, 0, f => f a :: as
  | a :: as, n + 1, f => a :: modifyAt as n f

/-- `key_set::index_of<K>()`: index of the first key equal to `k`.  In the
source a missing key is a compile error; here the result is meaningful only
when `k` occurs in `keys`. -/
def indexOfKey : List String → String → Nat
  | [], _ => 0
  | k' :: ks, k => if k' = k then 0 else indexOfKey ks k + 1

/-- `tskv::common::key_array<T, key_set<Keys...>>`: the compile-time key pack
becomes the list `keys`, the `std::array<T, size> data` becomes `data`
(same length as `keys`). -/
structure key_array (T : Type) where
  keys : List String
  data : List T
deriving DecidableEq

/-- `key_array::get<K>()`: the slot at `index_of<K>`. -/
def key_array.get {T : Type} [Inhabited T] (A : key_array T) (k : String) : T :=
  A.data.getD (indexOfKey A.keys k) default

/-- `key_array::operator+=(other)`: the fold expression
`((get<OtherKeys>() += other.get<OtherKeys>()), ...)` applied left to right
over the right-hand side's keys (which must all be contained in the left's). -/
def key_array.addAssign {T : Type} [Inhabited T] [Add T]
    (L R : key_array T) : key_array T :=
  { L with
    data := R.keys.foldl
      (fun d k => modifyAt d (indexOfKey L.keys k) (· + R.get k)) L.data }

theorem modifyAt_length {T : Type} (l : List T) (i : Nat) (f : T → T) :
    (modifyAt l i f).length = l.length := by
  induction l generalizing i with
  | nil => rfl
  | cons a as ih =>
    cases i with
    | zero => rfl
    | succ n => simpa [modifyAt] using ih n

theorem modifyAt_getD_ne {T : Type} (l : List T) (i j : Nat) (f : T → T) (d : T)
    (h : i ≠ j) : (modifyAt l i f).getD j d = l.getD j d := by
  induction l generalizing i j with
  | nil => rfl
  | cons a as ih =>
    cases i with
    | zero =>
      cases j with
      | zero => exact absurd rfl h
      | succ m => rfl
    | succ n =>
      cases j with
      | zero => rfl
      | succ m => simpa [modifyAt] using ih n m (by omega)

theorem modifyAt_getD_eq {T : Type} (l : List T) (i : Nat) (f : T → T) (d : T)
    (h : i < l.length) : (modifyAt l i f).getD i d = f (l.getD i d) := by
  induction l generalizing i with
  | nil => simp at h
  | cons a as ih =>
    cases i with
    | zero => rfl
    | succ n => simpa [modifyAt] using ih n (by simpa using h)

theorem indexOfKey_lt {keys : List String} {k : String} (h : k ∈ keys) :
    indexOfKey keys k < keys.length := by
  induction keys with
  | nil => simp at h
  | cons k' ks ih =>
    by_cases hk : k' = k
    · simp [indexOfKey, hk]
    · have hmem : k ∈ ks := by
        cases h with
        | head => exact absurd rfl hk
        | tail _ hm => exact hm
      simp only [indexOfKey, hk, if_false, List.length_cons]
      have := ih hmem
      omega

theorem getD_indexOfKey {keys : List String} {k : String} (d : String)
    (h : k ∈ keys) : keys.getD (indexOfKey keys k) d = k := by
  induction keys with
  | nil => simp at h
  | cons k' ks ih =>
    by_cases hk : k' = k
    · simp [indexOfKey, hk]
    · have hmem : k ∈ ks := by
        cases h with
        | head => exact absurd rfl hk
        | tail _ hm => exact hm
      simpa [indexOfKey, hk] using ih hmem

theorem indexOfKey_inj {keys : List String} {k k' : String}
    (hk : k ∈ keys) (hk' : k' ∈ keys)
    (h : indexOfKey keys k = indexOfKey keys k') : k = k' := by
  have h1 := @getD_indexOfKey keys k "" hk
  have h2 := @getD_indexOfKey keys k' "" hk'
  rw [← h1, ← h2, h]

theorem addAssign_foldl {T : Type} [Inhabited T] [Add T]
    (Lkeys : List String) (Rval : String → T) :
    ∀ (rkeys : List String) (d : List T), rkeys.Nodup →
      (∀ k' ∈ rkeys, k' ∈ Lkeys) → d.length = Lkeys.length →
      ∀ k ∈ Lkeys,
        (rkeys.foldl (fun d k => modifyAt d (indexOfKey Lkeys k) (· + Rval k)) d).getD
            (indexOfKey Lkeys k) default =
          if k ∈ rkeys then d.getD (indexOfKey Lkeys k) default + Rval k
          else d.getD (indexOfKey Lkeys k) default := by
  intro rkeys
  induction rkeys with
  | nil =>
    intro d _ _ _ k _
    simp
  | cons k0 rest ih =>
    intro d hnd hsub hlen k hkL
    have hk0L : k0 ∈ Lkeys := hsub k0 (List.mem_cons_self _ _)
    have hi0 : indexOfKey Lkeys k0 < d.length := by
      rw [hlen]; exact indexOfKey_lt hk0L
    have hrest_nd : rest.Nodup := (List.nodup_cons.mp hnd).2
    have hk0_notin : k0 ∉ rest := (List.nodup_cons.mp hnd).1
    have hrest_sub : ∀ k' ∈ rest, k' ∈ Lkeys := fun k' hk' =>
      hsub k' (List.mem_cons_of_mem _ hk')
    have hlen' : (modifyAt d (indexOfKey Lkeys k0) (· + Rval k0)).length = Lkeys.length := by
      rw [modifyAt_length]; exact hlen
    have ihk := ih (modifyAt d (indexOfKey Lkeys k0) (· + Rval k0))
      hrest_nd hrest_sub hlen' k hkL
    simp only [List.foldl_cons]
    rw [ihk]
    by_cases hkk0 : k = k0
    · subst hkk0
      simp only [hk0_notin, if_false, List.mem_cons, true_or, if_true]
      exact modifyAt_getD_eq d _ _ _ hi0
    · have hne : indexOfKey Lkeys k0 ≠ indexOfKey Lkeys k := fun h =>
        hkk0 (indexOfKey_inj hkL hk0L h.symm)
      rw [modifyAt_getD_ne d _ _ _ _ hne]
      by_cases hkr : k ∈ rest
      · simp [hkr, List.mem_cons]
      · simp [hkr, List.mem_cons, hkk0]

/-! ## ChannelPool (src/src/common/key_set.ixx, module tskv.net.channel) -/

/-- `ChannelPool::Chunk::CHUNK_SIZE`. -/
def CHUNK_SIZE : Nat := 256

/-- `ChannelPool::Chunk`: only the free-slot stack is observable here; the
list holds `free_stack_[0, free_top_)` with the head at the top
(`free_stack_[free_top_ - 1]`). -/
structure Chunk where
  freeStack : List Nat
deriving DecidableEq

/-- A newly constructed `Chunk`: `std::iota` fills the stack with
`0, …, CHUNK_SIZE-1`, so slot `CHUNK_SIZE-1` is popped first. -/
def freshChunk : Chunk := ⟨(List.range CHUNK_SIZE).reverse⟩

/-- `ChannelPool::Handle`: the chunk (by index into `chunks_`) and the slot
(by index into the chunk's `slots_` array) of an active channel. -/
structure Handle where
  chunkIdx : Nat
  slotIdx : Nat
deriving DecidableEq

/-- `tskv::net::ChannelPool<Proto>`: owning chunk list, the indices of the
non-full chunks (`nonfull_chunks_`, back of the vector = last list element),
and the `fd → Handle` map `active_` as an association list. -/
structure ChannelPool where
  chunks : List Chunk
  nonfullChunks : List Nat
  active : List (Int × Handle)
deriving DecidableEq

/-- `ChannelPool::allocate_new_chunk()`. -/
def ChannelPool.allocate_new_chunk (p : ChannelPool) : ChannelPool :=
  { p with
    chunks := p.chunks ++ [freshChunk],
    nonfullChunks := p.nonfullChunks ++ [p.chunks.length] }

/-- `ChannelPool::lookup(fd)` (also `active_.emplace`'s duplicate test). -/
def ChannelPool.lookup (p : ChannelPool) (fd : Int) : Option Handle :=
  (p.active.find? (fun e => e.1 == fd)).map (fun e => e.2)

/-- Outcome of `ChannelPool::acquire`: a normal return, or process
termination by a failed `assert` / `TSKV_DEMAND` (modelled as `fatal`,
carrying the pool state at the moment of termination). -/
inductive AcquireResult where
  | ok (pool : ChannelPool) (h : Handle)
  | fatal (pool : ChannelPool)
deriving DecidableEq

/-- The pool state carried by either outcome. -/
def AcquireResult.poolOf : AcquireResult → ChannelPool
  | .ok p _ => p
  | .fatal p => p

/-- Whether the call died on a failed assertion. -/
def AcquireResult.isFatal : AcquireResult → Bool
  | .ok _ _ => false
  | .fatal _ => true

/-- `ChannelPool::acquire(fd)`: assert `fd != -1`; allocate a chunk when no
non-full one exists; pop a free slot off the back non-full chunk
(`TSKV_DEMAND(free_top_ > 0)`); `active_.emplace(fd, {chunk, channel})`; on a
duplicate fd push the slot back and fail the `assert(inserted)`; when the
chunk became full drop it from `nonfull_chunks_`.  The two `.fatal` fallbacks
for a malformed `nonfullChunks` entry correspond to states the C++ raw
pointers cannot express and are unreachable under `ChannelPool.wf`. -/
def ChannelPool.acquire (p : ChannelPool) (fd : Int) : AcquireResult :=
  if fd = -1 then .fatal p
  else
    let p1 := if p.nonfullChunks.isEmpty then p.allocate_new_chunk else p
    match p1.nonfullChunks.getLast? with
    | none => .fatal p1
    | some ci =>
      match p1.chunks.getD ci ⟨[]⟩ with
      | ⟨[]⟩ => .fatal p1
      | ⟨idx :: rest⟩ =>
        if (p1.active.find? (fun e => e.1 == fd)).isSome then
          .fatal { p1 with chunks := (p1.chunks.set ci ⟨rest⟩).set ci ⟨idx :: rest⟩ }
        else
          let p2 := { p1 with
            chunks := p1.chunks.set ci ⟨rest⟩,
            active := p1.active ++ [(fd, ⟨ci, idx⟩)] }
          let p3 := if rest.isEmpty then
              { p2 with nonfullChunks := p2.nonfullChunks.dropLast }
            else p2
          .ok p3 ⟨ci, idx⟩

/-- Pool well-formedness used by the acquire theorems: every entry of
`nonfull_chunks_` points at an existing chunk with at least one free slot
(in the C++ these are live pointers to chunks kept in the list only while
non-full). -/
def ChannelPool.wf (p : ChannelPool) : Bool :=
  p.nonfullChunks.all
    (fun ci => ci < p.chunks.length && !(p.chunks.getD ci ⟨[]⟩).freeStack.isEmpty)

/-! ## Claim theorems -/

/-- C4: for every sequence of `write_from` / `read_into` calls on a fresh
`SimpleBuffer`, the concatenation of the bytes returned by the reads is a
prefix of the concatenation of the write inputs with each write truncated to
the free space at the time of the call, and
`used_space() + free_space() == capacity()` holds after every operation
(every prefix of a call sequence is itself a call sequence). -/
theorem buffer_fifo_law (cap : Nat) (ops : List BufOp) :
    (∃ rest, (runOps cap ops).reads ++ rest = (runOps cap ops).written)
    ∧ (runOps cap ops).buf.used_space + (runOps cap ops).buf.free_space = cap := by
  obtain ⟨h1, h2, h3⟩ := runOps_inv cap ops
  refine ⟨⟨(runOps cap ops).buf.data, h1⟩, ?_⟩
  simp only [SimpleBuffer.used_space, SimpleBuffer.free_space, h3]
  omega

/-- C5 (amended scenario): on a fresh capacity-8 buffer, after
`write_from("abcdef")` then `consume(2)`, `readable_span(4)` yields
`"cdef"`; after a further `write_from("ghij")` the live bytes are
`"cdefghij"`, so `readable_span(6)` yields `"cdefgh"` (not `"efghij"`:
`readable_span` reads from offset 0 and `consume(2)` removed only `"ab"`).
Byte values are the ASCII codes. -/
theorem buffer_compaction_amended :
    ((((SimpleBuffer.fresh 8).write_from [97, 98, 99, 100, 101, 102]).2.consume 2).readable_span 4
        = [99, 100, 101, 102])
    ∧ ((((((SimpleBuffer.fresh 8).write_from [97, 98, 99, 100, 101, 102]).2.consume 2).write_from
          [103, 104, 105, 106]).2).readable_span 6
        = [99, 100, 101, 102, 103, 104]) := by
  decide

/-- C5 (counterexample to the claim as stated): in the same scenario,
`readable_span(6)` after the second write does not yield `"efghij"`
(ASCII `[101, 102, 103, 104, 105, 106]`). -/
theorem buffer_compaction_counterexample :
    ¬ ((((((SimpleBuffer.fresh 8).write_from [97, 98, 99, 100, 101, 102]).2.consume 2).write_from
          [103, 104, 105, 106]).2).readable_span 6
        = [101, 102, 103, 104, 105, 106]) := by
  decide

/-- C6: committing `k ≤ |writable_span(m)|` grows `used_space()` by exactly
`k`; consuming `k ≤ |readable_span(m)|` shrinks `used_space()` by exactly
`k` and leaves exactly the old readable bytes with the first `k` removed,
compacted to offset 0. -/
theorem buffer_span_discipline (b : SimpleBuffer) (m k : Nat) :
    (k ≤ b.writable_span m → (b.commit k).used_space = b.used_space + k)
    ∧ (k ≤ (b.readable_span m).length →
        (b.consume k).used_space + k = b.used_space
        ∧ (b.consume k).data = b.data.drop k) := by
  constructor
  · intro hk
    unfold SimpleBuffer.writable_span at hk
    have hmin : min k b.free_space = k := by omega
    simp [SimpleBuffer.commit, SimpleBuffer.used_space, hmin]
  · intro hk
    have hku : k ≤ b.used_space := by
      unfold SimpleBuffer.readable_span at hk
      simp only [List.length_take] at hk
      unfold SimpleBuffer.used_space at hk ⊢
      omega
    have hmin : min k b.used_space = k := by omega
    have hd : (b.consume k).data = b.data.drop k := by
      rw [SimpleBuffer.consume_data, hmin]
    refine ⟨?_, hd⟩
    unfold SimpleBuffer.used_space at hku ⊢
    rw [hd, List.length_drop]
    omega

/-- C6 witness: a capacity-8 buffer holding three bytes, `m = 4`, `k = 2`. -/
theorem buffer_span_discipline_witness :
    ((⟨8, [10, 20, 30]⟩ : SimpleBuffer).commit 2).used_space
        = (⟨8, [10, 20, 30]⟩ : SimpleBuffer).used_space + 2
    ∧ ((⟨8, [10, 20, 30]⟩ : SimpleBuffer).consume 2).used_space + 2
        = (⟨8, [10, 20, 30]⟩ : SimpleBuffer).used_space
    ∧ ((⟨8, [10, 20, 30]⟩ : SimpleBuffer).consume 2).data
        = (⟨8, [10, 20, 30]⟩ : SimpleBuffer).data.drop 2 :=
  ⟨(buffer_span_discipline ⟨8, [10, 20, 30]⟩ 4 2).1 (by decide),
    ((buffer_span_discipline ⟨8, [10, 20, 30]⟩ 4 2).2 (by decide)).1,
    ((buffer_span_discipline ⟨8, [10, 20, 30]⟩ 4 2).2 (by decide)).2⟩

/-- C3: `should_close()` is true exactly when the state is Aborting, or the
state is Draining with an empty TX buffer. -/
theorem channel_should_close_iff (ch : Channel) :
    ch.should_close = true ↔
      (ch.socket_state = SocketState.Aborting
        ∨ (ch.socket_state = SocketState.Draining ∧ ch.tx_buf.empty = true)) := by
  by_cases h1 : ch.socket_state = SocketState.Aborting
  · simp [Channel.should_close, h1]
  · by_cases h2 : ch.socket_state = SocketState.Draining ∧ ch.tx_buf.empty = true
    · simp [Channel.should_close, h1, h2]
    · simp [Channel.should_close, h1, h2]

theorem can_read_iff (ch : Channel) :
    ch.can_read = true ↔ (ch.socket_state = SocketState.Running ∧ ch.rx_buf.full = false) := by
  unfold Channel.can_read
  by_cases h : ch.socket_state = SocketState.Running <;> simp [h]

theorem can_write_iff (ch : Channel) :
    ch.can_write = true ↔
      ((ch.socket_state = SocketState.Running ∨ ch.socket_state = SocketState.Draining)
        ∧ ch.tx_buf.empty = false) := by
  unfold Channel.can_write
  by_cases h : ch.socket_state = SocketState.Running ∨ ch.socket_state = SocketState.Draining <;>
    simp [h]

/-- C2: `desired_events()` reports read interest (the `EPOLLIN` bit) iff the
state is Running and RX is not full, and write interest (the `EPOLLOUT` bit)
iff the state is Running or Draining and TX is not empty; the mask is a pure
function of `(state, RX full, TX empty)` recomputed per query — in
particular it does not depend on the stored `last_events_mask_`, the
descriptor, or anything else in the channel. -/
theorem channel_desired_events_spec (ch : Channel) :
    ((ch.desired_events &&& EPOLLIN ≠ 0) ↔
        (ch.socket_state = SocketState.Running ∧ ch.rx_buf.full = false))
    ∧ ((ch.desired_events &&& EPOLLOUT ≠ 0) ↔
        ((ch.socket_state = SocketState.Running ∨ ch.socket_state = SocketState.Draining)
          ∧ ch.tx_buf.empty = false))
    ∧ (∀ ch' : Channel, ch'.socket_state = ch.socket_state →
        ch'.rx_buf.full = ch.rx_buf.full → ch'.tx_buf.empty = ch.tx_buf.empty →
        ch'.desired_events = ch.desired_events) := by
  have hin : (ch.desired_events &&& EPOLLIN ≠ 0) ↔ ch.can_read = true := by
    unfold Channel.desired_events
    cases hcr : ch.can_read <;> cases hcw : ch.can_write <;>
      simp [hcr, hcw, EPOLLIN, EPOLLOUT]
  have hout : (ch.desired_events &&& EPOLLOUT ≠ 0) ↔ ch.can_write = true := by
    unfold Channel.desired_events
    cases hcr : ch.can_read <;> cases hcw : ch.can_write <;>
      simp [hcr, hcw, EPOLLIN, EPOLLOUT]
  refine ⟨hin.trans (can_read_iff ch), hout.trans (can_write_iff ch), ?_⟩
  intro ch' h1 h2 h3
  have hr : ch'.can_read = ch.can_read := by
    unfold Channel.can_read
    rw [h1, h2]
  have hw : ch'.can_write = ch.can_write := by
    unfold Channel.can_write
    rw [h1, h3]
  unfold Channel.desired_events
  rw [hr, hw]

/-- C2 witness: a Running channel with room in RX and one pending TX byte
has both interests; a Closed channel with the same buffers has neither. -/
theorem channel_desired_events_witness :
    ((⟨5, ⟨4, [9]⟩, ⟨4, []⟩, 0, SocketState.Running⟩ : Channel).desired_events &&& EPOLLIN ≠ 0)
    ∧ ((⟨5, ⟨4, [9]⟩, ⟨4, []⟩, 0, SocketState.Running⟩ : Channel).desired_events &&& EPOLLOUT ≠ 0)
    ∧ (⟨5, ⟨4, [9]⟩, ⟨4, []⟩, 77, SocketState.Running⟩ : Channel).desired_events
        = (⟨5, ⟨4, [9]⟩, ⟨4, []⟩, 0, SocketState.Running⟩ : Channel).desired_events :=
  ⟨(channel_desired_events_spec ⟨5, ⟨4, [9]⟩, ⟨4, []⟩, 0, SocketState.Running⟩).1.mpr
      (by decide),
    (channel_desired_events_spec ⟨5, ⟨4, [9]⟩, ⟨4, []⟩, 0, SocketState.Running⟩).2.1.mpr
      (by decide),
    (channel_desired_events_spec ⟨5, ⟨4, [9]⟩, ⟨4, []⟩, 0, SocketState.Running⟩).2.2
      ⟨5, ⟨4, [9]⟩, ⟨4, []⟩, 77, SocketState.Running⟩ rfl rfl rfl⟩

/-- C10: `begin_shutdown()` only ever changes the socket state, and only from
Running to Draining; from any other state the whole channel is untouched,
and the call is idempotent. -/
theorem begin_shutdown_spec (ch : Channel) :
    ch.begin_shutdown.fd = ch.fd
    ∧ ch.begin_shutdown.rx_buf = ch.rx_buf
    ∧ ch.begin_shutdown.tx_buf = ch.tx_buf
    ∧ ch.begin_shutdown.last_events_mask = ch.last_events_mask
    ∧ (ch.socket_state = SocketState.Running →
        ch.begin_shutdown.socket_state = SocketState.Draining)
    ∧ (ch.socket_state ≠ SocketState.Running → ch.begin_shutdown = ch)
    ∧ ch.begin_shutdown.begin_shutdown = ch.begin_shutdown := by
  by_cases h : ch.socket_state = SocketState.Running <;>
    simp [Channel.begin_shutdown, h]

/-- C10 witness: a Running channel drains and stays drained; a Closed channel
is untouched. -/
theorem begin_shutdown_witness :
    (⟨5, ⟨4, []⟩, ⟨4, []⟩, 0, SocketState.Running⟩ : Channel).begin_shutdown.socket_state
        = SocketState.Draining
    ∧ (⟨5, ⟨4, []⟩, ⟨4, []⟩, 0, SocketState.Closed⟩ : Channel).begin_shutdown
        = (⟨5, ⟨4, []⟩, ⟨4, []⟩, 0, SocketState.Closed⟩ : Channel)
    ∧ (⟨5, ⟨4, []⟩, ⟨4, []⟩, 0, SocketState.Running⟩ : Channel).begin_shutdown.begin_shutdown
        = (⟨5, ⟨4, []⟩, ⟨4, []⟩, 0, SocketState.Running⟩ : Channel).begin_shutdown :=
  ⟨(begin_shutdown_spec ⟨5, ⟨4, []⟩, ⟨4, []⟩, 0, SocketState.Running⟩).2.2.2.2.1 rfl,
    (begin_shutdown_spec ⟨5, ⟨4, []⟩, ⟨4, []⟩, 0, SocketState.Closed⟩).2.2.2.2.2.1 (by decide),
    (begin_shutdown_spec ⟨5, ⟨4, []⟩, ⟨4, []⟩, 0, SocketState.Running⟩).2.2.2.2.2.2⟩

/-- C1: `tx_send(data)` returns the Forbidden result exactly in the Closed
and Aborting states, and then queues nothing and leaves the channel (in
particular the TX buffer) unmodified; otherwise it queues
`min(|data|, free)` bytes onto the end of the TX buffer and reports Full
exactly when all of `data` fit, Partial otherwise. -/
theorem channel_tx_send_spec (ch : Channel) (data : List Byte) :
    (((ch.tx_send data).1.2 = SendResult.Forbidden) ↔
        (ch.socket_state = SocketState.Closed ∨ ch.socket_state = SocketState.Aborting))
    ∧ ((ch.socket_state = SocketState.Closed ∨ ch.socket_state = SocketState.Aborting) →
        (ch.tx_send data).1.1 = 0 ∧ (ch.tx_send data).2 = ch)
    ∧ (¬(ch.socket_state = SocketState.Closed ∨ ch.socket_state = SocketState.Aborting) →
        ((ch.tx_send data).1.2 = SendResult.Full ↔ data.length ≤ ch.tx_buf.free_space)
        ∧ ((ch.tx_send data).1.2 = SendResult.Partial ↔ ch.tx_buf.free_space < data.length)
        ∧ (ch.tx_send data).1.1 = min data.length ch.tx_buf.free_space
        ∧ (ch.tx_send data).2.tx_buf.data
            = ch.tx_buf.data ++ data.take (min data.length ch.tx_buf.free_space)
        ∧ (ch.tx_send data).2.socket_state = ch.socket_state
        ∧ (ch.tx_send data).2.rx_buf = ch.rx_buf) := by
  by_cases h : ch.socket_state = SocketState.Closed ∨ ch.socket_state = SocketState.Aborting
  · refine ⟨?_, fun _ => ?_, fun hc => absurd h hc⟩
    · simp [Channel.tx_send, h]
    · simp [Channel.tx_send, h]
  · refine ⟨?_, fun hc => absurd hc h, fun _ => ?_⟩
    · by_cases hfit : data.length ≤ ch.tx_buf.free_space
      · have hmin : min data.length ch.tx_buf.free_space = data.length := by omega
        simp [Channel.tx_send, h, SimpleBuffer.write_from, hmin]
      · have hmin : min data.length ch.tx_buf.free_space ≠ data.length := by omega
        simp [Channel.tx_send, h, SimpleBuffer.write_from, hmin]
    · by_cases hfit : data.length ≤ ch.tx_buf.free_space
      · have hmin : min data.length ch.tx_buf.free_space = data.length := by omega
        refine ⟨?_, ?_, ?_, ?_, ?_, ?_⟩ <;>
          · simp [Channel.tx_send, h, SimpleBuffer.write_from, hmin, hfit]
            try omega
      · have hmin : min data.length ch.tx_buf.free_space ≠ data.length := by omega
        refine ⟨?_, ?_, ?_, ?_, ?_, ?_⟩ <;>
          · simp [Channel.tx_send, h, SimpleBuffer.write_from, hmin]
            try omega

/-- C1 witness: a Closed channel refuses and is untouched; a Running channel
with two free TX bytes queues two of three bytes and reports Partial. -/
theorem channel_tx_send_witness :
    ((⟨5, ⟨4, [1, 2]⟩, ⟨4, []⟩, 0, SocketState.Closed⟩ : Channel).tx_send [7]).1.1 = 0
    ∧ ((⟨5, ⟨4, [1, 2]⟩, ⟨4, []⟩, 0, SocketState.Closed⟩ : Channel).tx_send [7]).2
        = (⟨5, ⟨4, [1, 2]⟩, ⟨4, []⟩, 0, SocketState.Closed⟩ : Channel)
    ∧ (((⟨5, ⟨4, [1, 2]⟩, ⟨4, []⟩, 0, SocketState.Running⟩ : Channel).tx_send [7, 8, 9]).1.2
          = SendResult.Partial
        ↔ (⟨4, [1, 2]⟩ : SimpleBuffer).free_space < 3)
    ∧ ((⟨5, ⟨4, [1, 2]⟩, ⟨4, []⟩, 0, SocketState.Running⟩ : Channel).tx_send [7, 8, 9]).2.tx_buf.data
        = [1, 2, 7, 8] :=
  ⟨((channel_tx_send_spec ⟨5, ⟨4, [1, 2]⟩, ⟨4, []⟩, 0, SocketState.Closed⟩ [7]).2.1
      (by decide)).1,
    ((channel_tx_send_spec ⟨5, ⟨4, [1, 2]⟩, ⟨4, []⟩, 0, SocketState.Closed⟩ [7]).2.1
      (by decide)).2,
    ((channel_tx_send_spec ⟨5, ⟨4, [1, 2]⟩, ⟨4, []⟩, 0, SocketState.Running⟩ [7, 8, 9]).2.2
      (by decide)).2.1,
    by decide⟩

theorem gaugeStep_eq (g : Nat) (sh : List AdditiveGaugeShard) (v : Nat) :
    gaugeStep (g, sh) v = ((g + v) % U64, sh ++ [⟨v, v⟩]) := by
  simp [gaugeStep, flush_thread, foldShard, AdditiveGaugeShard.set,
    AdditiveGaugeShard.post_sync, AdditiveGaugeShard.sync, freshShard]

theorem gauge_foldl_spec (vs : List Nat) :
    ∀ (g : Nat) (sh : List AdditiveGaugeShard), g < U64 →
      (vs.foldl gaugeStep (g, sh)).1 = (g + vs.sum) % U64
      ∧ (vs.foldl gaugeStep (g, sh)).2
          = sh ++ vs.map (fun v => (⟨v, v⟩ : AdditiveGaugeShard)) := by
  induction vs with
  | nil =>
    intro g sh hg
    exact ⟨by simp [Nat.mod_eq_of_lt hg], by simp⟩
  | cons v rest ih =>
    intro g sh hg
    rw [List.foldl_cons, gaugeStep_eq]
    have hpos : 0 < U64 := by decide
    obtain ⟨h1, h2⟩ := ih ((g + v) % U64) (sh ++ [⟨v, v⟩]) (Nat.mod_lt _ hpos)
    constructor
    · rw [h1, Nat.mod_add_mod, List.sum_cons, Nat.add_assoc]
    · rw [h2, List.map_cons, List.append_assoc]
      rfl

/-- C7: when each of N fresh per-thread shards performs `set_gauge(v_i)` and
then a forced fold (`flush_thread` with zero interval), the folds running
one at a time, the global gauge ends at `Σ v_i mod 2^64` and every shard's
`last_synced` ends equal to its `current`; moreover every single fold
adjusts the global by exactly `current - last_synced` in wrap-around 64-bit
arithmetic and then snapshots `last_synced := current`. -/
theorem additive_gauge_fold (vs : List Nat) (_hvs : ∀ v ∈ vs, v < U64) :
    (runGaugeScenario vs).1 = vs.sum % U64
    ∧ (runGaugeScenario vs).2 = vs.map (fun v => (⟨v, v⟩ : AdditiveGaugeShard))
    ∧ (∀ (g : Nat) (s : AdditiveGaugeShard),
        g < U64 → s.current < U64 → s.last_synced < U64 →
        Int.ModEq (U64 : Int) (AdditiveGaugeShard.sync g s)
            ((g : Int) + (s.current : Int) - (s.last_synced : Int))
        ∧ foldShard g s = (AdditiveGaugeShard.sync g s, ⟨s.current, s.current⟩)) := by
  obtain ⟨h1, h2⟩ := gauge_foldl_spec vs 0 [] (by decide)
  refine ⟨by simpa [runGaugeScenario] using h1, by simpa [runGaugeScenario] using h2, ?_⟩
  intro g s hg hc hl
  have hU : (U64 : Int) = 18446744073709551616 := by norm_num [U64]
  constructor
  · unfold AdditiveGaugeShard.sync Int.ModEq
    by_cases h : s.last_synced ≤ s.current
    · simp only [h, if_true]
      push_cast [Nat.cast_sub h]
      rw [hU]
      omega
    · simp only [h, if_false]
      have hsub1 : s.last_synced - s.current ≤ U64 :=
        le_trans (Nat.sub_le _ _) (le_of_lt hl)
      have hsub2 : s.current ≤ s.last_synced := le_of_not_le h
      push_cast [Nat.cast_sub hsub1, Nat.cast_sub hsub2]
      rw [hU]
      omega
  · cases s
    rfl

/-- C7 witness: three shards ending at 3, 5 and `2^64 - 1`; the global wraps
to `(3 + 5 + (2^64 - 1)) mod 2^64 = 7`; one concrete fold with
`current < last_synced` adjusts the global downward modulo `2^64`. -/
theorem additive_gauge_fold_witness :
    (runGaugeScenario [3, 5, 2 ^ 64 - 1]).1 = 7
    ∧ (runGaugeScenario [3, 5, 2 ^ 64 - 1]).2.map AdditiveGaugeShard.last_synced
        = [3, 5, 2 ^ 64 - 1]
    ∧ Int.ModEq (U64 : Int) (AdditiveGaugeShard.sync 5 ⟨7, 9⟩)
        ((5 : Int) + (7 : Int) - (9 : Int)) :=
  ⟨by
      rw [(additive_gauge_fold [3, 5, 2 ^ 64 - 1] (by decide)).1]
      decide,
    by
      rw [(additive_gauge_fold [3, 5, 2 ^ 64 - 1] (by decide)).2.1]
      decide,
    ((additive_gauge_fold [3, 5, 2 ^ 64 - 1] (by decide)).2.2 5 ⟨7, 9⟩
        (by decide) (by decide) (by decide)).1⟩

theorem addAssign_foldl_length {T : Type} [Inhabited T] [Add T]
    (Lkeys : List String) (Rval : String → T) (rkeys : List String) :
    ∀ d : List T,
      (rkeys.foldl (fun d k => modifyAt d (indexOfKey Lkeys k) (· + Rval k)) d).length
        = d.length := by
  induction rkeys with
  | nil => intro d; rfl
  | cons k0 rest ih =>
    intro d
    rw [List.foldl_cons, ih, modifyAt_length]

/-- C9: adding a keyed array whose key set is contained in the left side's
increments exactly the shared slots by the right side's value for the key
and leaves every other slot (and the key layout) unchanged. -/
theorem key_array_addAssign_spec {T : Type} [Inhabited T] [Add T]
    (L R : key_array T) (hlen : L.data.length = L.keys.length)
    (hR : R.keys.Nodup) (hsub : ∀ k ∈ R.keys, k ∈ L.keys) :
    (L.addAssign R).keys = L.keys
    ∧ (L.addAssign R).data.length = L.data.length
    ∧ ∀ k ∈ L.keys,
        (L.addAssign R).get k =
          if k ∈ R.keys then L.get k + R.get k else L.get k := by
  refine ⟨rfl, ?_, ?_⟩
  · exact addAssign_foldl_length L.keys (fun k => R.get k) R.keys L.data
  · intro k hk
    have h := addAssign_foldl L.keys (fun k => R.get k) R.keys L.data hR hsub hlen k hk
    simp only [key_array.get, key_array.addAssign] at h ⊢
    simpa using h

/-- C9 witness: `L = {a ↦ 10, b ↦ 20, c ↦ 30}`, `R = {c ↦ 1, a ↦ 2}`;
the shared slots a and c gain 2 and 1, slot b is untouched. -/
theorem key_array_addAssign_witness :
    ((⟨["a", "b", "c"], [10, 20, 30]⟩ : key_array Nat).addAssign
          ⟨["c", "a"], [1, 2]⟩).get "a"
        = (if "a" ∈ (["c", "a"] : List String) then 10 + 2 else 10)
    ∧ ((⟨["a", "b", "c"], [10, 20, 30]⟩ : key_array Nat).addAssign
          ⟨["c", "a"], [1, 2]⟩).data = [12, 20, 31] :=
  ⟨by
      rw [(key_array_addAssign_spec (⟨["a", "b", "c"], [10, 20, 30]⟩ : key_array Nat)
          ⟨["c", "a"], [1, 2]⟩ (by decide) (by decide) (by decide)).2.2 "a" (by decide)]
      decide,
    by decide⟩

theorem list_set_set {α : Type} (l : List α) (i : Nat) (a b : α) :
    (l.set i a).set i b = l.set i b := by
  induction l generalizing i with
  | nil => rfl
  | cons x xs ih =>
    cases i with
    | zero => rfl
    | succ n =>
      show x :: (xs.set n a).set n b = x :: xs.set n b
      rw [ih]

theorem list_set_getD_self {α : Type} (l : List α) (i : Nat) (d : α)
    (h : i < l.length) : l.set i (l.getD i d) = l := by
  induction l generalizing i with
  | nil => simp at h
  | cons x xs ih =>
    cases i with
    | zero => rfl
    | succ n =>
      show x :: xs.set n (xs.getD n d) = x :: xs
      rw [ih n (by simpa using h)]

theorem list_getLast?_mem {α : Type} :
    ∀ (l : List α) (a : α), l.getLast? = some a → a ∈ l := by
  intro l
  induction l with
  | nil => intro a h; cases h
  | cons x xs ih =>
    intro a h
    cases xs with
    | nil =>
      simp only [List.getLast?_singleton, Option.some.injEq] at h
      rw [h]
      exact List.mem_singleton_self a
    | cons y ys =>
      rw [List.getLast?_cons_cons] at h
      exact List.mem_cons_of_mem _ (ih a h)

theorem list_getD_concat_length {α : Type} (l : List α) (x d : α) :
    (l ++ [x]).getD l.length d = x := by
  induction l with
  | nil => rfl
  | cons y ys ih =>
    show (ys ++ [x]).getD ys.length d = x
    exact ih

theorem list_ne_nil_exists_getLast? {α : Type} :
    ∀ (l : List α), l ≠ [] → ∃ a, l.getLast? = some a := by
  intro l
  induction l with
  | nil => intro h; exact absurd rfl h
  | cons x xs ih =>
    intro _
    cases xs with
    | nil => exact ⟨x, rfl⟩
    | cons y ys =>
      obtain ⟨a, ha⟩ := ih (by simp)
      exact ⟨a, by rw [List.getLast?_cons_cons]; exact ha⟩

theorem list_set_concat_self {α : Type} (l : List α) (x : α) :
    (l ++ [x]).set l.length x = l ++ [x] := by
  induction l with
  | nil => rfl
  | cons y ys ih =>
    show y :: (ys ++ [x]).set ys.length x = y :: (ys ++ [x])
    rw [ih]

set_option maxRecDepth 8192 in
/-- C8 (amended): calling `acquire(fd)` with `fd` already in the active map
dies on the failed `assert(inserted)` (an invariant violation, not a normal
return); at that point the freshly popped slot has been pushed back onto its
chunk's free stack and the active map is exactly as before the call — the
only structural difference is that, when no non-full chunk existed at entry,
the fresh (entirely free) chunk allocated at the top of the call remains. -/
theorem pool_acquire_duplicate (p : ChannelPool) (fd : Int)
    (hfd : fd ≠ -1) (hdup : (p.lookup fd).isSome = true) (hwf : p.wf = true) :
    p.acquire fd
      = AcquireResult.fatal
          (if p.nonfullChunks.isEmpty then p.allocate_new_chunk else p) := by
  have hfind : (p.active.find? (fun e => e.1 == fd)).isSome = true := by
    unfold ChannelPool.lookup at hdup
    cases hfo : p.active.find? (fun e => e.1 == fd) <;> rw [hfo] at hdup <;> simp_all
  have hfresh : freshChunk.freeStack = 255 :: (List.range 255).reverse := by
    show (List.range CHUNK_SIZE).reverse = _
    rw [show CHUNK_SIZE = 255 + 1 by norm_num [CHUNK_SIZE], List.range_succ]
    simp
  have hchunk1 : freshChunk = ⟨255 :: (List.range 255).reverse⟩ := by
    have h0 : freshChunk = ⟨freshChunk.freeStack⟩ := rfl
    rw [h0, hfresh]
  by_cases hnil : p.nonfullChunks = []
  · have hemp : p.nonfullChunks.isEmpty = true := by rw [hnil]; rfl
    simp only [ChannelPool.acquire, if_neg hfd, hemp, eq_self_iff_true, if_true]
    simp only [ChannelPool.allocate_new_chunk, hnil, List.nil_append,
      List.getLast?_singleton]
    simp only [list_getD_concat_length, hchunk1, hfind, eq_self_iff_true, if_true]
    rw [list_set_set, list_set_concat_self]
  · have hemp : p.nonfullChunks.isEmpty = false := by
      cases hl : p.nonfullChunks with
      | nil => exact absurd hl hnil
      | cons a as => rfl
    obtain ⟨ci, hci⟩ := list_ne_nil_exists_getLast? _ hnil
    have hmem := list_getLast?_mem _ _ hci
    simp only [ChannelPool.wf, List.all_eq_true] at hwf
    have hw := hwf ci hmem
    simp only [Bool.and_eq_true, decide_eq_true_eq, Bool.not_eq_true'] at hw
    have hne2 : (p.chunks.getD ci ⟨[]⟩).freeStack ≠ [] := by
      intro hx
      rw [hx] at hw
      simp at hw
    obtain ⟨idx, rest, hstack⟩ := List.exists_cons_of_ne_nil hne2
    have hchunk : p.chunks.getD ci ⟨[]⟩ = ⟨idx :: rest⟩ := by
      have h0 : p.chunks.getD ci ⟨[]⟩ = ⟨(p.chunks.getD ci ⟨[]⟩).freeStack⟩ := rfl
      rw [h0, hstack]
    simp only [ChannelPool.acquire, if_neg hfd, hemp, Bool.false_eq_true, if_false,
      hci, hchunk, hfind, eq_self_iff_true, if_true]
    rw [list_set_set, ← hchunk, list_set_getD_self _ _ _ hw.1]

/-- A pool whose single chunk is exhausted (empty free stack, so it is not in
`nonfull_chunks_`) and whose active map holds fd 7 in chunk 0, slot 0: the
shape a pool has after `CHUNK_SIZE` successful acquires (shrunk here to one
occupied slot so that the witness evaluates cheaply). -/
def dupPoolFull : ChannelPool := ⟨[⟨[]⟩], [], [(7, ⟨0, 0⟩)]⟩

/-- A pool with one non-full chunk (slot 3 free) and fd 7 active. -/
def dupPoolNonfull : ChannelPool := ⟨[⟨[3]⟩], [0], [(7, ⟨0, 9⟩)]⟩

/-- C8 witness: acquiring an already-active fd dies fatally; with a non-full
chunk available, the pool at termination is exactly the original (slot pushed
back, map untouched); with none, it is the original plus the freshly
allocated chunk. -/
theorem pool_acquire_duplicate_witness :
    dupPoolFull.acquire 7
        = AcquireResult.fatal
            (if dupPoolFull.nonfullChunks.isEmpty then dupPoolFull.allocate_new_chunk
              else dupPoolFull)
    ∧ dupPoolNonfull.acquire 7
        = AcquireResult.fatal
            (if dupPoolNonfull.nonfullChunks.isEmpty then dupPoolNonfull.allocate_new_chunk
              else dupPoolNonfull)
    ∧ dupPoolNonfull.acquire 7 = AcquireResult.fatal dupPoolNonfull :=
  ⟨pool_acquire_duplicate dupPoolFull 7 (by decide) (by decide) (by decide),
    pool_acquire_duplicate dupPoolNonfull 7 (by decide) (by decide) (by decide),
    by decide⟩

/-- C8 (counterexample to the claim as stated): on a pool with no non-full
chunk, acquiring a duplicate fd does return the popped slot and leaves the
active map intact, but the pool's chunk list is not as it was before the
call — the chunk allocated on entry remains, so the final chunk list has one
more chunk. -/
theorem pool_acquire_counterexample :
    (dupPoolFull.acquire 7).isFatal = true
    ∧ (dupPoolFull.acquire 7).poolOf.active = dupPoolFull.active
    ∧ (dupPoolFull.acquire 7).poolOf.chunks ≠ dupPoolFull.chunks := by
  refine ⟨rfl, rfl, ?_⟩
  intro h
  have hlen := congrArg List.length h
  have h2 : (dupPoolFull.acquire 7).poolOf.chunks.length = 2 := rfl
  have h3 : dupPoolFull.chunks.length = 1 := rfl
  rw [h2, h3] at hlen
  exact absurd hlen (by decide)

/-- C3 witness: a Draining channel with empty TX must close; evaluation
agrees. -/
theorem channel_should_close_witness :
    (⟨5, ⟨4, []⟩, ⟨4, []⟩, 0, SocketState.Draining⟩ : Channel).should_close = true
    ∧ (⟨5, ⟨4, [1]⟩, ⟨4, []⟩, 0, SocketState.Draining⟩ : Channel).should_close = false :=
  ⟨(channel_should_close_iff ⟨5, ⟨4, []⟩, ⟨4, []⟩, 0, SocketState.Draining⟩).mpr
      (Or.inr ⟨rfl, rfl⟩),
    by decide⟩

/-- C4 witness: the spec's truncation scenario — an 11-byte write into a
capacity-8 buffer stores the first 8 bytes, a further write stores nothing,
and an 8-byte read returns those stored bytes. -/
theorem buffer_fifo_law_witness :
    (∃ rest,
        (runOps 8 [BufOp.write [65, 66, 67, 68, 69, 70, 71, 72, 73, 74, 75],
            BufOp.write [90], BufOp.read 8]).reads ++ rest
          = (runOps 8 [BufOp.write [65, 66, 67, 68, 69, 70, 71, 72, 73, 74, 75],
              BufOp.write [90], BufOp.read 8]).written)
    ∧ (runOps 8 [BufOp.write [65, 66, 67, 68, 69, 70, 71, 72, 73, 74, 75],
          BufOp.write [90], BufOp.read 8]).reads
        = [65, 66, 67, 68, 69, 70, 71, 72] :=
  ⟨(buffer_fifo_law 8 [BufOp.write [65, 66, 67, 68, 69, 70, 71, 72, 73, 74, 75],
      BufOp.write [90], BufOp.read 8]).1,
    by decide⟩
